import Mathlib

/-!
Verification of the go-bloomd client library: a shallow embedding of the
response parsers (parser source: parseBool, parseBoolList, parseConfirmation,
parseDropConfirmation, parseCreate, parseInfo, parseFilterList), the
transport functions (send, recv), and the create command encoder
(CreateWithParams, buildCreateCommand), together with theorems settling the
frozen claims about them.

Protocol text is modelled as Lean String / List Char; Go errors are modelled
by the inductive BErr below, with the two sentinel errors of error.go
(FilterDoesNotExist, DeleteInProgress) as distinguished constructors and
every errors.New / errors.Errorf value as a protocolError carrying its
message text.
-/

set_option maxRecDepth 10000

deriving instance DecidableEq for Except

namespace Bloomd


/-- Errors produced by the client, mirroring error.go and the ad-hoc
errors.New / errors.Errorf values of the parser source: the two package-level
sentinel errors are distinguished constructors, and every other error is a
protocolError carrying the formatted message. -/
inductive BErr where
  | filterDoesNotExist : BErr
  | deleteInProgress : BErr
  | protocolError (msg : String) : BErr
deriving DecidableEq, Repr

/-- parseCreate from the parser source: switch on the response; "Done" and
"Exists" succeed, "Delete in progress" returns the DeleteInProgress sentinel,
anything else returns errors.New(resp). -/
def parseCreate (resp : String) : Except BErr Unit :=
  if resp = "Done" then Except.ok ()
  else if resp = "Exists" then Except.ok ()
  else if resp = "Delete in progress" then Except.error BErr.deleteInProgress
  else Except.error (BErr.protocolError resp)

/-- parseDropConfirmation from the parser source: switch on the response;
"Done" and "Filter does not exist" succeed, anything else returns
errors.New(resp). -/
def parseDropConfirmation (resp : String) : Except BErr Unit :=
  if resp = "Done" then Except.ok ()
  else if resp = "Filter does not exist" then Except.ok ()
  else Except.error (BErr.protocolError resp)

/-- Go strings.Split for a one-character separator, on unpacked character
lists: Split("", sep) = [""], and in general one entry per separator
occurrence plus one, preserving order. Used by parseBoolList (space) and by
the newline splitting in parseInfo and parseFilterList. -/
def splitOnChar (sep : Char) : List Char → List (List Char)
  | [] => [[]]
  | c :: rest =>
    match splitOnChar sep rest with
    | [] => [[]]
    | h :: t => if c = sep then [] :: h :: t else (c :: h) :: t

/-- Joining token lists with a one-character separator: the inverse
construction used to describe well-formed daemon replies. -/
def joinSepC (sep : Char) : List (List Char) → List Char
  | [] => []
  | [t] => t
  | t :: ts => t ++ sep :: joinSepC sep ts

set_option linter.unusedVariables false in
/-- parseBoolList from the parser source: the "Filter does not exist" reply
maps to the FilterDoesNotExist sentinel; a reply not beginning with "Yes" or
"No" is a protocol error carrying the formatted message; otherwise the reply
is split on single spaces and each token compared against "Yes". The count
argument is used by the Go code only as a capacity hint for the result slice. -/
def parseBoolList (n : Nat) (resp : String) : Except BErr (List Bool) :=
  if resp = "Filter does not exist" then
    Except.error BErr.filterDoesNotExist
  else if !("Yes".data.isPrefixOf resp.data) && !("No".data.isPrefixOf resp.data) then
    Except.error (BErr.protocolError ("bloomd: unexpected response " ++ resp))
  else
    Except.ok ((splitOnChar ' ' resp.data).map (fun w => w == "Yes".data))

/-- BloomFilter from the parser source, the summary record of one filter.
The Probability field is Go float32; it is modelled by the exact rational
value of the parsed decimal text. -/
structure BloomFilter where
  Capacity : Int
  Name : String
  Probability : Rat
  Size : Int
  Storage : Int
deriving DecidableEq, Repr

/-- VerboseBloomFilter from the parser source: BloomFilter (embedded in Go)
plus the info counters. -/
structure VerboseBloomFilter extends BloomFilter where
  Checks : Int
  CheckHits : Int
  CheckMisses : Int
  PageIns : Int
  PageOuts : Int
  Sets : Int
  SetHits : Int
  SetMisses : Int
deriving DecidableEq, Repr

/-- All characters are decimal digits (true on the empty list). -/
def allDigits (l : List Char) : Bool := l.all (fun c => c.isDigit)

/-- Numeric value of a decimal digit list (0 on the empty list). -/
def digitsNat (l : List Char) : Nat :=
  l.foldl (fun acc c => acc * 10 + (c.toNat - '0'.toNat)) 0

/-- Go strconv.Atoi: optional sign followed by one or more decimal digits,
with the value required to fit a 64-bit signed integer; anything else is an
error (none). -/
def atoi (s : String) : Option Int :=
  let p : Bool × List Char :=
    match s.data with
    | '+' :: rest => (false, rest)
    | '-' :: rest => (true, rest)
    | l => (false, l)
  if allDigits p.2 ∧ p.2 ≠ [] then
    let i : Int := if p.1 then -(digitsNat p.2 : Int) else (digitsNat p.2 : Int)
    if -(2 ^ 63) ≤ i ∧ i ≤ 2 ^ 63 - 1 then some i else none
  else none

/-- Split a character list at the first exponent marker e or E, returning
the part before it and, when a marker exists, the part after it. -/
def splitAtExp : List Char → List Char × Option (List Char)
  | [] => ([], none)
  | c :: rest =>
    if c = 'e' ∨ c = 'E' then ([], some rest)
    else
      let p := splitAtExp rest
      (c :: p.1, p.2)

/-- Split a character list at the first dot, returning the part before it
and, when a dot exists, the part after it. -/
def splitAtDot : List Char → List Char × Option (List Char)
  | [] => ([], none)
  | c :: rest =>
    if c = '.' then ([], some rest)
    else
      let p := splitAtDot rest
      (c :: p.1, p.2)

/-- Go strconv.ParseFloat on the plain decimal forms of the bloomd protocol,
with the exact rational value standing in for the rounded binary float:
optional sign, decimal digits with at most one dot and at least one digit,
optional decimal exponent with optional sign. The extra forms Go also
accepts (inf/nan words, hex floats, digit-group underscores) lie outside the
protocol grammar and are not modelled. -/
def parseFloatQ (s : String) : Option Rat :=
  let p : Bool × List Char :=
    match s.data with
    | '+' :: rest => (false, rest)
    | '-' :: rest => (true, rest)
    | l => (false, l)
  let me := splitAtExp p.2
  let idf := splitAtDot me.1
  let fp := idf.2.getD []
  if allDigits idf.1 ∧ allDigits fp ∧ (idf.1 ≠ [] ∨ fp ≠ []) then
    let m : Nat := digitsNat idf.1 * 10 ^ fp.length + digitsNat fp
    let sm : Int := if p.1 then -(m : Int) else (m : Int)
    match me.2 with
    | none => some (mkRat sm (10 ^ fp.length))
    | some e =>
      let q : Bool × List Char :=
        match e with
        | '+' :: rest => (false, rest)
        | '-' :: rest => (true, rest)
        | l => (false, l)
      if allDigits q.2 ∧ q.2 ≠ [] then
        some (if q.1 then mkRat sm (10 ^ fp.length * 10 ^ digitsNat q.2)
              else mkRat (sm * (10 : Int) ^ digitsNat q.2) (10 ^ fp.length))
      else none
  else none

/-- Go strings.SplitN(line, sep, 2) for a one-character separator: none when
the separator does not occur (SplitN returns a single part), otherwise the
part before the first separator and everything after it. -/
def breakAtChar (sep : Char) : List Char → Option (List Char × List Char)
  | [] => none
  | c :: rest =>
    if c = sep then some ([], rest)
    else
      match breakAtChar sep rest with
      | none => none
      | some (a, b) => some (c :: a, b)

/-- The per-line well-formedness check of an info response line: the line
splits at a first space into key and value, and the value parses as a float
for the probability key and as an integer for every other key. -/
def infoLineOK (line : List Char) : Bool :=
  match breakAtChar ' ' line with
  | none => false
  | some (k, v) =>
    if String.mk k = "probability" then (parseFloatQ (String.mk v)).isSome
    else (atoi (String.mk v)).isSome

/-- The line-consuming loop of parseInfo from the parser source: each line
must split at its first space into key and value; the probability key parses
as a float into its own accumulator, every other key parses as an integer
into the properties map (zero default, later lines overwrite); any
malformed line aborts with a protocol error carrying the whole response. -/
def parseInfoLoop (resp : String) :
    List (List Char) → (String → Int) → Rat → Except BErr ((String → Int) × Rat)
  | [], props, prob => Except.ok (props, prob)
  | line :: rest, props, prob =>
    match breakAtChar ' ' line with
    | none => Except.error (BErr.protocolError ("bloomd: unexpected response " ++ resp))
    | some (k, v) =>
      if String.mk k = "probability" then
        match parseFloatQ (String.mk v) with
        | some q => parseInfoLoop resp rest props q
        | none => Except.error (BErr.protocolError ("bloomd: unexpected response " ++ resp))
      else
        match atoi (String.mk v) with
        | some i =>
          parseInfoLoop resp rest (fun key => if key = String.mk k then i else props key) prob
        | none => Except.error (BErr.protocolError ("bloomd: unexpected response " ++ resp))

/-- parseInfo from the parser source: split the response on newlines, run the
line loop, and assemble the VerboseBloomFilter from the recognized keys;
unknown keys are ignored and missing keys default to zero. -/
def parseInfo (name resp : String) : Except BErr VerboseBloomFilter :=
  match parseInfoLoop resp (splitOnChar '\n' resp.data) (fun _ => 0) 0 with
  | Except.error e => Except.error e
  | Except.ok pp =>
    Except.ok
      { Capacity := pp.1 "capacity"
        Name := name
        Probability := pp.2
        Size := pp.1 "size"
        Storage := pp.1 "storage"
        Checks := pp.1 "checks"
        CheckHits := pp.1 "check_hits"
        CheckMisses := pp.1 "check_misses"
        PageIns := pp.1 "page_ins"
        PageOuts := pp.1 "page_outs"
        Sets := pp.1 "sets"
        SetHits := pp.1 "set_hits"
        SetMisses := pp.1 "set_misses" }

/-- One row of a list response, standalone: exactly five space-separated
fields name probability storage capacity size, the numeric fields parsed as
in parseFilterList; none on any malformed field. -/
def parseRow (row : List Char) : Option BloomFilter :=
  match splitOnChar ' ' row with
  | [nm, pr, st, cp, sz] =>
    match parseFloatQ (String.mk pr), atoi (String.mk st),
        atoi (String.mk cp), atoi (String.mk sz) with
    | some prob, some storage, some capacity, some size =>
      some ⟨capacity, String.mk nm, prob, size, storage⟩
    | _, _, _, _ => none
  | _ => none

/-- The row-consuming loop of parseFilterList from the parser source: each
row is parsed by the row logic of parseRow, and the first malformed row
aborts the whole call with a protocol error carrying the entire response. -/
def parseFilterListLoop (resp : String) : List (List Char) → Except BErr (List BloomFilter)
  | [] => Except.ok []
  | row :: rest =>
    match parseRow row with
    | none => Except.error (BErr.protocolError ("bloomd: unexpected response " ++ resp))
    | some f =>
      match parseFilterListLoop resp rest with
      | Except.error e => Except.error e
      | Except.ok l => Except.ok (f :: l)

/-- parseFilterList from the parser source: split the response on newlines
and parse every row. -/
def parseFilterList (resp : String) : Except BErr (List BloomFilter) :=
  parseFilterListLoop resp (splitOnChar '\n' resp.data)

/-- Go fmt "%f" of the probability, as used by the prob= suffix of the
create command: fixed six decimal places, modelled on the exact rational by
rounding half away from zero at the sixth decimal. -/
def formatFloat6 (q : Rat) : String :=
  let n : Nat := q.num.natAbs * 1000000
  let scaled : Nat := (2 * n + q.den) / (2 * q.den)
  let ip := scaled / 1000000
  let fp := scaled % 1000000
  let fps := Nat.repr fp
  (if q.num < 0 then "-" else "") ++ Nat.repr ip ++ "." ++
    String.mk (List.replicate (6 - fps.length) '0') ++ fps

/-- buildCreateCommand from the client source: the string builder writes
"create", a space and the name, then appends " capacity=<int>" when
capacity > 0, " prob=<float>" when probability > 0, and " in_memory=1" when
inMemory, in that order. -/
def buildCreateCommand (name : String) (capacity : Int) (probability : Rat)
    (inMemory : Bool) : String :=
  let s1 := "create" ++ " " ++ name
  let s2 := if capacity > 0 then s1 ++ " " ++ "capacity=" ++ toString capacity else s1
  let s3 := if probability > 0 then s2 ++ " " ++ "prob=" ++ formatFloat6 probability else s2
  if inMemory then s3 ++ " " ++ "in_memory=1" else s3

/-- CreateWithParams from the client source, modelled up to its network
dispatch: a positive probability with capacity below one is rejected before
any command is built or sent; otherwise the returned value is the exact
command line handed to sendCommand. An error therefore means nothing was
sent and no client state was touched. -/
def createWithParams (name : String) (capacity : Int) (probability : Rat)
    (inMemory : Bool) : Except String String :=
  if probability > 0 ∧ capacity < 1 then Except.error "bloomd: invalid capacity/probability"
  else Except.ok (buildCreateCommand name capacity probability inMemory)

/-- bufio Reader.ReadString up to and including a newline, over the bytes
still readable from the connection (modelled as a character list): the
shortest prefix ending in a newline plus the remainder, and none when no
newline can be read before the stream ends (a failed read: connection
closed or I/O error). -/
def readLine : List Char → Option (List Char × List Char)
  | [] => none
  | c :: rest =>
    if c = '\n' then some ([c], rest)
    else
      match readLine rest with
      | none => none
      | some (l, r) => some (c :: l, r)

/-- Go strings.TrimRight with a cutset: drop every trailing character that
belongs to the cutset. -/
def rtrimCut (cut : List Char) (s : List Char) : List Char :=
  (s.reverse.dropWhile (fun c => cut.contains c)).reverse

/-- The body of the block-reading loop of recv, recursing on an explicit
fuel bound; each line read consumes at least one character, so any fuel of
at least the stream length gives the loop semantics (recvBlockF_congr). -/
def recvBlockF : Nat → List Char → Option (List Char)
  | 0, _ => none
  | fuel + 1, s =>
    match readLine s with
    | none => none
    | some (l, rest) =>
      if ("END".data).isPrefixOf l then some []
      else
        match recvBlockF fuel rest with
        | none => none
        | some acc => some (l ++ acc)

/-- The block-reading loop of recv from the client source: keep reading
lines, stopping at the first line beginning with the END marker, which is
dropped; every earlier line is accumulated as read, line terminator
included; a failed read fails the whole receive. -/
def recvBlock (s : List Char) : Option (List Char) := recvBlockF s.length s

/-- recv from the client source: read one line; if it begins with the START
marker, accumulate block lines up to the first line beginning with the END
marker, otherwise keep the single line; then strip trailing carriage returns
and newlines (TrimRight with cutset CR LF, then TrimRight LF again). A
failed read at any point yields an error (none), never a partial result. -/
def recv (s : List Char) : Option String :=
  match readLine s with
  | none => none
  | some (txt, rest) =>
    if ("START".data).isPrefixOf txt then
      match recvBlock rest with
      | none => none
      | some acc => some (String.mk (rtrimCut ['\n'] (rtrimCut ['\r', '\n'] acc)))
    else
      some (String.mk (rtrimCut ['\n'] (rtrimCut ['\r', '\n'] txt)))

/-- The retry loop of send from the client source, over an abstract
connection whose i-th write attempt succeeds exactly when outcomes i is
true: while attempted < maxAttempts, write cmd plus a newline (appended to
the returned write trace) and return success at the first successful write;
on leaving the loop the last write error is wrapped — pkg/errors.Wrap of a
nil error is nil, so if no attempt ever ran (attempted still zero) the
result is success. -/
def sendLoop (outcomes : Nat → Bool) (cmd : String) (maxAttempts attempted : Nat)
    (trace : List String) : Except String Unit × List String :=
  if h : attempted < maxAttempts then
    let trace2 := trace ++ [cmd ++ "\n"]
    if outcomes attempted then (Except.ok (), trace2)
    else sendLoop outcomes cmd maxAttempts (attempted + 1) trace2
  else
    if attempted = 0 then (Except.ok (), trace)
    else (Except.error "bloomd: unable to write to connection", trace)
termination_by maxAttempts - attempted
decreasing_by omega

/-- send from the client source: run the retry loop from attempt zero with
an empty write trace. -/
def send (outcomes : Nat → Bool) (cmd : String) (maxAttempts : Nat) :
    Except String Unit × List String :=
  sendLoop outcomes cmd maxAttempts 0 []

theorem splitOnChar_cons (sep c : Char) (rest : List Char) :
    splitOnChar sep (c :: rest) =
      match splitOnChar sep rest with
      | [] => [[]]
      | h :: t => if c = sep then [] :: h :: t else (c :: h) :: t := rfl

theorem splitOnChar_ne_nil (sep : Char) (s : List Char) : splitOnChar sep s ≠ [] := by
  induction s with
  | nil => simp [splitOnChar]
  | cons c rest ih =>
    rw [splitOnChar_cons]
    cases h : splitOnChar sep rest with
    | nil => exact absurd h ih
    | cons hd tl => by_cases hc : c = sep <;> simp [hc]

theorem splitOnChar_of_not_mem {sep : Char} {w : List Char} (h : sep ∉ w) :
    splitOnChar sep w = [w] := by
  induction w with
  | nil => rfl
  | cons c rest ih =>
    rw [splitOnChar_cons, ih (fun hm => h (List.mem_cons_of_mem _ hm))]
    have hc : c ≠ sep := fun hc => h (hc ▸ List.mem_cons_self _ _)
    simp [hc]

theorem splitOnChar_append {sep : Char} {w : List Char} (r : List Char) (h : sep ∉ w) :
    splitOnChar sep (w ++ sep :: r) = w :: splitOnChar sep r := by
  induction w with
  | nil =>
    simp only [List.nil_append]
    rw [splitOnChar_cons]
    cases hs : splitOnChar sep r with
    | nil => exact absurd hs (splitOnChar_ne_nil sep r)
    | cons hd tl => simp
  | cons c rest ih =>
    have hc : c ≠ sep := fun hc => h (hc ▸ List.mem_cons_self _ _)
    have ih' := ih (fun hm => h (List.mem_cons_of_mem _ hm))
    simp only [List.cons_append]
    rw [splitOnChar_cons, ih']
    simp [hc]

theorem splitOnChar_joinSepC {sep : Char} {ts : List (List Char)} (hne : ts ≠ [])
    (h : ∀ t ∈ ts, sep ∉ t) : splitOnChar sep (joinSepC sep ts) = ts := by
  induction ts with
  | nil => exact absurd rfl hne
  | cons t rest ih =>
    cases rest with
    | nil =>
      simp only [joinSepC]
      exact splitOnChar_of_not_mem (h t (List.mem_cons_self _ _))
    | cons t2 rest2 =>
      have hjoin : joinSepC sep (t :: t2 :: rest2) = t ++ sep :: joinSepC sep (t2 :: rest2) := rfl
      rw [hjoin, splitOnChar_append _ (h t (List.mem_cons_self _ _)),
        ih (by simp) (fun u hu => h u (List.mem_cons_of_mem _ hu))]

theorem parseInfoLoop_ok_iff (resp : String) (lines : List (List Char)) :
    ∀ (props : String → Int) (prob : Rat),
      (∃ r, parseInfoLoop resp lines props prob = Except.ok r) ↔
        ∀ line ∈ lines, infoLineOK line = true := by
  induction lines with
  | nil =>
    intro props prob
    simp [parseInfoLoop]
  | cons line rest ih =>
    intro props prob
    simp only [parseInfoLoop]
    cases hb : breakAtChar ' ' line with
    | none => simp [infoLineOK, hb]
    | some kv =>
      obtain ⟨k, v⟩ := kv
      by_cases hk : String.mk k = "probability"
      · cases hq : parseFloatQ (String.mk v) with
        | none => simp [infoLineOK, hb, hk, hq]
        | some q => simp [infoLineOK, hb, hk, hq, ih]
      · cases ha : atoi (String.mk v) with
        | none => simp [infoLineOK, hb, hk, ha]
        | some i => simp [infoLineOK, hb, hk, ha, ih]

theorem parseInfoLoop_ok_or_error (resp : String) (lines : List (List Char)) :
    ∀ (props : String → Int) (prob : Rat),
      (∃ r, parseInfoLoop resp lines props prob = Except.ok r) ∨
      parseInfoLoop resp lines props prob =
        Except.error (BErr.protocolError ("bloomd: unexpected response " ++ resp)) := by
  induction lines with
  | nil =>
    intro props prob
    exact Or.inl ⟨_, rfl⟩
  | cons line rest ih =>
    intro props prob
    simp only [parseInfoLoop]
    cases hb : breakAtChar ' ' line with
    | none => exact Or.inr rfl
    | some kv =>
      obtain ⟨k, v⟩ := kv
      by_cases hk : String.mk k = "probability"
      · cases hq : parseFloatQ (String.mk v) with
        | none => simp [hk, hq]
        | some q => simp only [hk, if_pos, hq]; exact ih _ _
      · cases ha : atoi (String.mk v) with
        | none => simp [hk, ha]
        | some i => simp only [if_neg hk, ha]; exact ih _ _

/-- C3: parseInfo splits the response on newlines and succeeds exactly when
every line splits at a space into a key and a numerically parseable value
(float for probability, integer otherwise), failing with a protocol error
carrying the response text otherwise; unknown keys are ignored and missing
keys default to zero; on the spec example it yields the stated
VerboseBloomFilter. -/
theorem parseInfo_spec :
    (∀ (name resp : String),
      ((∃ f, parseInfo name resp = Except.ok f) ↔
        ∀ line ∈ splitOnChar '\n' resp.data, infoLineOK line = true) ∧
      (¬(∀ line ∈ splitOnChar '\n' resp.data, infoLineOK line = true) →
        parseInfo name resp =
          Except.error (BErr.protocolError ("bloomd: unexpected response " ++ resp)))) ∧
    parseInfo "x" "unknown_key 5" =
      Except.ok ⟨⟨0, "x", 0, 0, 0⟩, 0, 0, 0, 0, 0, 0, 0, 0⟩ ∧
    parseInfo "Filtero"
        ("capacity 1000000\nchecks 3\ncheck_hits 2\ncheck_misses 1\npage_ins 3\npage_outs 3\nprobability 0.001\nsets 4\nset_hits 3\nset_misses 1\nsize 4\nstorage 1797211") =
      Except.ok ⟨⟨1000000, "Filtero", mkRat 1 1000, 4, 1797211⟩, 3, 2, 1, 3, 3, 4, 3, 1⟩ := by
  refine ⟨?_, by decide, by decide⟩
  intro name resp
  constructor
  · constructor
    · rintro ⟨f, hf⟩
      rw [← parseInfoLoop_ok_iff resp _ (fun _ => 0) 0]
      unfold parseInfo at hf
      cases hcase : parseInfoLoop resp (splitOnChar '\n' resp.data) (fun _ => 0) 0 with
      | error e => rw [hcase] at hf; cases hf
      | ok pp => exact ⟨pp, rfl⟩
    · intro hall
      obtain ⟨r, hr⟩ := (parseInfoLoop_ok_iff resp _ (fun _ => 0) 0).mpr hall
      refine ⟨⟨⟨r.1 "capacity", name, r.2, r.1 "size", r.1 "storage"⟩,
        r.1 "checks", r.1 "check_hits", r.1 "check_misses", r.1 "page_ins",
        r.1 "page_outs", r.1 "sets", r.1 "set_hits", r.1 "set_misses"⟩, ?_⟩
      unfold parseInfo
      rw [hr]
  · intro hnall
    have herr :
        parseInfoLoop resp (splitOnChar '\n' resp.data) (fun _ => 0) 0 =
          Except.error (BErr.protocolError ("bloomd: unexpected response " ++ resp)) := by
      rcases parseInfoLoop_ok_or_error resp (splitOnChar '\n' resp.data) (fun _ => 0) 0 with
        hok | herr
      · exact absurd ((parseInfoLoop_ok_iff resp _ (fun _ => 0) 0).mp hok) hnall
      · exact herr
    unfold parseInfo
    rw [herr]

/-- Witness for C3 at concrete inputs, using the quantified part. -/
theorem parseInfo_spec_witness :
    parseInfo "Filtero" "garbage" =
      Except.error (BErr.protocolError ("bloomd: unexpected response garbage")) ∧
    (∃ f, parseInfo "f" "capacity 10" = Except.ok f) :=
  ⟨(parseInfo_spec.1 "Filtero" "garbage").2 (by decide),
   ((parseInfo_spec.1 "f" "capacity 10").1).mpr (by decide)⟩

theorem parseRow_some (row : List Char) (f : BloomFilter) (h : parseRow row = some f) :
    ∃ nm pr st cp sz, splitOnChar ' ' row = [nm, pr, st, cp, sz] ∧
      f.Name = String.mk nm ∧ parseFloatQ (String.mk pr) = some f.Probability ∧
      atoi (String.mk st) = some f.Storage ∧ atoi (String.mk cp) = some f.Capacity ∧
      atoi (String.mk sz) = some f.Size := by
  unfold parseRow at h
  split at h
  · split at h
    · rename_i nm pr st cp sz h5 o1 o2 o3 o4 prob storage capacity size hpr hst hcp hsz
      simp only [Option.some.injEq] at h
      subst h
      exact ⟨nm, pr, st, cp, sz, h5, rfl, hpr, hst, hcp, hsz⟩
    · cases h
  · cases h

theorem parseFilterListLoop_eq_mapM (resp : String) (rows : List (List Char)) :
    parseFilterListLoop resp rows =
      match rows.mapM parseRow with
      | some l => Except.ok l
      | none => Except.error (BErr.protocolError ("bloomd: unexpected response " ++ resp)) := by
  induction rows with
  | nil => rfl
  | cons row rest ih =>
    simp only [parseFilterListLoop, List.mapM_cons]
    cases hrow : parseRow row with
    | none => simp [hrow]
    | some f =>
      cases hrest : rest.mapM parseRow with
      | none =>
        have hrest2 : List.mapM.loop parseRow rest [] = none := hrest
        simp [hrow, hrest, hrest2, ih]
      | some l =>
        have hrest2 : List.mapM.loop parseRow rest [] = some l := hrest
        simp [hrow, hrest, hrest2, ih]

theorem mapM_parseRow_length :
    ∀ (rows : List (List Char)) (l : List BloomFilter),
      rows.mapM parseRow = some l → l.length = rows.length := by
  intro rows
  induction rows with
  | nil =>
    intro l h
    simp only [List.mapM_nil, pure, Option.some.injEq] at h
    simp [← h]
  | cons row rest ih =>
    intro l h
    simp only [List.mapM_cons] at h
    cases hrow : parseRow row with
    | none => rw [hrow] at h; simp at h
    | some f =>
      rw [hrow] at h
      cases hrest : rest.mapM parseRow with
      | none => rw [hrest] at h; simp at h
      | some l2 =>
        rw [hrest] at h
        simp at h
        subst h
        simp [ih l2 hrest]

/-- C4: parseFilterList splits the response on newlines and parses every row
into a BloomFilter preserving row order, a successful row being exactly five
space-separated fields read as name, probability (float), storage, capacity,
size; any malformed row makes the whole call a protocol error carrying the
response; the result has one record per row; and on the spec example it
yields the three stated records in order. -/
theorem parseFilterList_spec :
    (∀ resp : String,
      parseFilterList resp =
        match (splitOnChar '\n' resp.data).mapM parseRow with
        | some l => Except.ok l
        | none =>
          Except.error (BErr.protocolError ("bloomd: unexpected response " ++ resp))) ∧
    (∀ (row : List Char) (f : BloomFilter), parseRow row = some f →
      ∃ nm pr st cp sz, splitOnChar ' ' row = [nm, pr, st, cp, sz] ∧
        f.Name = String.mk nm ∧ parseFloatQ (String.mk pr) = some f.Probability ∧
        atoi (String.mk st) = some f.Storage ∧ atoi (String.mk cp) = some f.Capacity ∧
        atoi (String.mk sz) = some f.Size) ∧
    (∀ (resp : String) (l : List BloomFilter), parseFilterList resp = Except.ok l →
      l.length = (splitOnChar '\n' resp.data).length) ∧
    parseFilterList
        "bar 0.000100 300046 100000 1\nfoo 0.000200 300056 200000 2\ncar 0.000300 300066 300000 3" =
      Except.ok [⟨100000, "bar", mkRat 1 10000, 1, 300046⟩,
        ⟨200000, "foo", mkRat 1 5000, 2, 300056⟩,
        ⟨300000, "car", mkRat 3 10000, 3, 300066⟩] := by
  refine ⟨?_, parseRow_some, ?_, by decide⟩
  · intro resp
    unfold parseFilterList
    exact parseFilterListLoop_eq_mapM resp _
  · intro resp l hok
    unfold parseFilterList at hok
    rw [parseFilterListLoop_eq_mapM] at hok
    cases hm : (splitOnChar '\n' resp.data).mapM parseRow with
    | none => rw [hm] at hok; cases hok
    | some l2 =>
      rw [hm] at hok
      simp only [Except.ok.injEq] at hok
      subst hok
      exact mapM_parseRow_length _ _ hm

/-- Witness for C4 at a concrete malformed response, using the quantified
parts. -/
theorem parseFilterList_spec_witness :
    parseFilterList "bar 0.0001" =
      Except.error (BErr.protocolError ("bloomd: unexpected response bar 0.0001")) ∧
    ([] : List BloomFilter).length = 0 := by
  constructor
  · exact (parseFilterList_spec.1 "bar 0.0001").trans (by decide)
  · rfl

/-- C7: CreateWithParams rejects a positive probability with capacity < 1
before sending anything; otherwise the command line is "create <name>" with
the capacity=, prob= and in_memory=1 suffixes appended exactly when
capacity > 0, probability > 0 and inMemory hold respectively; capacity 0 and
probability 0 (no params) give the bare create command requesting daemon
defaults. -/
theorem createWithParams_spec :
    (∀ (name : String) (capacity : Int) (probability : Rat) (inMemory : Bool),
      (createWithParams name capacity probability inMemory =
          Except.error "bloomd: invalid capacity/probability" ↔
        probability > 0 ∧ capacity < 1) ∧
      (¬(probability > 0 ∧ capacity < 1) →
        createWithParams name capacity probability inMemory =
          Except.ok ("create " ++ name ++
            (if capacity > 0 then " capacity=" ++ toString capacity else "") ++
            (if probability > 0 then " prob=" ++ formatFloat6 probability else "") ++
            (if inMemory then " in_memory=1" else "")))) ∧
    (∀ name : String, createWithParams name 0 0 false = Except.ok ("create" ++ " " ++ name)) := by
  constructor
  · intro name capacity probability inMemory
    constructor
    · unfold createWithParams
      split_ifs with hg
      · simp [hg]
      · simp [hg]
    · intro hg
      unfold createWithParams
      rw [if_neg hg]
      unfold buildCreateCommand
      by_cases hc : capacity > 0 <;> by_cases hp : probability > 0 <;>
        cases inMemory <;>
        simp only [hc, hp, if_true, if_false, Bool.false_eq_true, ite_true, ite_false,
          String.append_assoc, String.append_empty, String.empty_append] <;> try rfl
  · intro name
    rfl

/-- Witness for C7 at concrete parameters. -/
theorem createWithParams_spec_witness :
    createWithParams "foo" 0 (mkRat 1 100) false =
      Except.error "bloomd: invalid capacity/probability" ∧
    createWithParams "foo" 1000 (mkRat 1 100) true =
      Except.ok "create foo capacity=1000 prob=0.010000 in_memory=1" := by
  constructor
  · exact (createWithParams_spec.1 "foo" 0 (mkRat 1 100) false).1.mpr ⟨by decide, by decide⟩
  · have h := (createWithParams_spec.1 "foo" 1000 (mkRat 1 100) true).2 (by decide)
    exact h.trans (by decide)

theorem readLine_length {s l r : List Char} (h : readLine s = some (l, r)) :
    r.length < s.length := by
  induction s generalizing l r with
  | nil => cases h
  | cons c rest ih =>
    unfold readLine at h
    split_ifs at h with hc
    · simp only [Option.some.injEq, Prod.mk.injEq] at h
      simp [← h.2]
    · cases hr : readLine rest with
      | none => rw [hr] at h; cases h
      | some lr =>
        obtain ⟨l2, r2⟩ := lr
        rw [hr] at h
        simp only [Option.some.injEq, Prod.mk.injEq] at h
        have := ih hr
        simp only [← h.2]
        simp only [List.length_cons]
        omega

theorem recvBlockF_congr :
    ∀ (f1 f2 : Nat) (s : List Char), s.length ≤ f1 → s.length ≤ f2 →
      recvBlockF f1 s = recvBlockF f2 s := by
  intro f1
  induction f1 with
  | zero =>
    intro f2 s h1 h2
    have hs : s = [] := List.eq_nil_of_length_eq_zero (by omega)
    subst hs
    cases f2 with
    | zero => rfl
    | succ f2b => rfl
  | succ f1b ih =>
    intro f2 s h1 h2
    cases f2 with
    | zero =>
      have hs : s = [] := List.eq_nil_of_length_eq_zero (by omega)
      subst hs
      rfl
    | succ f2b =>
      simp only [recvBlockF]
      cases hr : readLine s with
      | none => rfl
      | some lr =>
        obtain ⟨l, rest⟩ := lr
        have hlen := readLine_length hr
        show (if ("END".data).isPrefixOf l then some []
              else match recvBlockF f1b rest with
                   | none => none
                   | some acc => some (l ++ acc)) =
            (if ("END".data).isPrefixOf l then some []
              else match recvBlockF f2b rest with
                   | none => none
                   | some acc => some (l ++ acc))
        rw [ih f2b rest (by omega) (by omega)]

theorem recvBlock_unfold (s : List Char) :
    recvBlock s =
      match readLine s with
      | none => none
      | some (l, rest) =>
        if ("END".data).isPrefixOf l then some []
        else
          match recvBlock rest with
          | none => none
          | some acc => some (l ++ acc) := by
  cases s with
  | nil => rfl
  | cons a s2 =>
    show recvBlockF (s2.length + 1) (a :: s2) = _
    simp only [recvBlockF]
    cases hr : readLine (a :: s2) with
    | none => rfl
    | some lr =>
      obtain ⟨l, rest⟩ := lr
      have hlen := readLine_length hr
      have hle : rest.length ≤ s2.length := by
        simp only [List.length_cons] at hlen
        omega
      show (if ("END".data).isPrefixOf l then some []
            else match recvBlockF s2.length rest with
                 | none => none
                 | some acc => some (l ++ acc)) =
          (if ("END".data).isPrefixOf l then some []
            else match recvBlock rest with
                 | none => none
                 | some acc => some (l ++ acc))
      rw [recvBlockF_congr s2.length rest.length rest hle le_rfl]
      rfl

theorem readLine_line {c : List Char} (rest : List Char) (h : '\n' ∉ c) :
    readLine (c ++ '\n' :: rest) = some (c ++ ['\n'], rest) := by
  induction c with
  | nil => simp [readLine]
  | cons a c2 ih =>
    have ha : a ≠ '\n' := fun heq => h (heq ▸ List.mem_cons_self _ _)
    simp only [List.cons_append, readLine, if_neg ha, List.append_eq,
      ih (fun hm => h (List.mem_cons_of_mem _ hm))]

theorem readLine_none {s : List Char} (h : '\n' ∉ s) : readLine s = none := by
  induction s with
  | nil => rfl
  | cons a s2 ih =>
    have ha : a ≠ '\n' := fun heq => h (heq ▸ List.mem_cons_self _ _)
    simp only [readLine, if_neg ha, ih (fun hm => h (List.mem_cons_of_mem _ hm))]

theorem recvBlock_none {s : List Char} (h : '\n' ∉ s) : recvBlock s = none := by
  rw [recvBlock_unfold, readLine_none h]

theorem recvBlock_end {e : List Char} (rest : List Char) (hn : '\n' ∉ e)
    (he : ("END".data).isPrefixOf (e ++ ['\n']) = true) :
    recvBlock (e ++ '\n' :: rest) = some [] := by
  rw [recvBlock_unfold, readLine_line rest hn]
  simp [he]

theorem recvBlock_step {c : List Char} (more : List Char) (hn : '\n' ∉ c)
    (hne : ¬("END".data).isPrefixOf (c ++ ['\n']) = true) :
    recvBlock (c ++ '\n' :: more) =
      match recvBlock more with
      | none => none
      | some acc => some ((c ++ ['\n']) ++ acc) := by
  rw [recvBlock_unfold, readLine_line more hn]
  simp [hne]

theorem recvBlock_join (cs : List (List Char))
    (hcs : ∀ c ∈ cs, '\n' ∉ c ∧ ¬("END".data).isPrefixOf (c ++ ['\n']) = true) :
    ∀ tail : List Char,
      recvBlock ((cs.map (fun c => c ++ ['\n'])).flatten ++ tail) =
        match recvBlock tail with
        | none => none
        | some acc => some ((cs.map (fun c => c ++ ['\n'])).flatten ++ acc) := by
  induction cs with
  | nil =>
    intro tail
    simp only [List.map_nil, List.flatten_nil, List.nil_append]
    cases recvBlock tail <;> simp
  | cons c cs2 ih =>
    intro tail
    have hc := hcs c (List.mem_cons_self _ _)
    have hstream : (((c :: cs2).map (fun c => c ++ ['\n'])).flatten ++ tail) =
        c ++ '\n' :: ((cs2.map (fun c => c ++ ['\n'])).flatten ++ tail) := by
      simp [List.append_assoc]
    rw [hstream, recvBlock_step _ hc.1 hc.2,
      ih (fun u hu => hcs u (List.mem_cons_of_mem _ hu))]
    cases recvBlock tail <;> simp [List.append_assoc]

theorem dropWhile_dropWhile {p q : Char → Bool} (l : List Char)
    (himp : ∀ a, q a = true → p a = true) :
    (l.dropWhile p).dropWhile q = l.dropWhile p := by
  induction l with
  | nil => rfl
  | cons a l2 ih =>
    cases hp : p a with
    | true => simp [List.dropWhile_cons, hp, ih]
    | false =>
      have hq : q a = false := by
        cases hqa : q a with
        | true => exact absurd (himp a hqa) (by simp [hp])
        | false => rfl
      simp [List.dropWhile_cons, hp, hq]

theorem rtrimCut_rtrimCut {cut2 cut : List Char} (s : List Char)
    (h : ∀ a, cut2.contains a = true → cut.contains a = true) :
    rtrimCut cut2 (rtrimCut cut s) = rtrimCut cut s := by
  unfold rtrimCut
  rw [List.reverse_reverse, dropWhile_dropWhile _ h]

theorem rtrimCut_append_newline {cut : List Char} (s : List Char)
    (hcut : cut.contains '\n' = true) :
    rtrimCut cut (s ++ ['\n']) = rtrimCut cut s := by
  unfold rtrimCut
  simp only [List.reverse_append, List.reverse_cons, List.reverse_nil, List.nil_append,
    List.singleton_append, List.dropWhile_cons, hcut, if_true]

theorem rtrimCut_of_no_cut {cut s : List Char}
    (h : ∀ a ∈ s, cut.contains a = false) : rtrimCut cut s = s := by
  unfold rtrimCut
  have hdrop : s.reverse.dropWhile (fun c => cut.contains c) = s.reverse := by
    cases hs : s.reverse with
    | nil => rfl
    | cons a t =>
      have ha : a ∈ s := by
        rw [← List.mem_reverse, hs]
        exact List.mem_cons_self _ _
      simp only [List.dropWhile_cons, h a ha, Bool.false_eq_true, if_false]
  rw [hdrop, List.reverse_reverse]

theorem dropWhile_append_of_ne_nil {p : Char → Bool} {u : List Char} (v : List Char)
    (h : u.dropWhile p ≠ []) : (u ++ v).dropWhile p = u.dropWhile p ++ v := by
  induction u with
  | nil => exact absurd rfl h
  | cons a u2 ih =>
    cases hp : p a with
    | true =>
      have h2 : u2.dropWhile p ≠ [] := by
        simpa [List.dropWhile_cons, hp] using h
      simp [List.dropWhile_cons, hp, ih h2]
    | false => simp [List.dropWhile_cons, hp]

theorem rtrimCut_append_of_ne_nil {cut : List Char} (y : List Char) {x : List Char}
    (h : rtrimCut cut x ≠ []) : rtrimCut cut (y ++ x) = y ++ rtrimCut cut x := by
  unfold rtrimCut at h ⊢
  have hx : x.reverse.dropWhile (fun c => cut.contains c) ≠ [] := by
    intro hc
    exact h (by rw [hc, List.reverse_nil])
  rw [List.reverse_append, dropWhile_append_of_ne_nil _ hx, List.reverse_append,
    List.reverse_reverse]

theorem rtrim_join_clean (cs : List (List Char)) (hne : cs ≠ [])
    (hc : ∀ c ∈ cs, c ≠ [] ∧ '\n' ∉ c ∧ '\r' ∉ c) :
    rtrimCut ['\r', '\n'] ((cs.map (fun c => c ++ ['\n'])).flatten) = joinSepC '\n' cs := by
  induction cs with
  | nil => exact absurd rfl hne
  | cons c cs2 ih =>
    have hcc := hc c (List.mem_cons_self _ _)
    have hclean : ∀ a ∈ c, (['\r', '\n'] : List Char).contains a = false := by
      intro a ha
      have hr : a ≠ '\r' := fun heq => hcc.2.2 (heq ▸ ha)
      have hn : a ≠ '\n' := fun heq => hcc.2.1 (heq ▸ ha)
      simp [List.contains, hr, hn]
    cases cs2 with
    | nil =>
      show rtrimCut ['\r', '\n'] ((c ++ ['\n']) ++ []) = c
      rw [List.append_nil, rtrimCut_append_newline c (by decide),
        rtrimCut_of_no_cut hclean]
    | cons c2 cs3 =>
      have ihr := ih (by simp) (fun u hu => hc u (List.mem_cons_of_mem _ hu))
      have hjoin_ne : joinSepC '\n' (c2 :: cs3) ≠ [] := by
        have hc2 := hc c2 (List.mem_cons_of_mem _ (List.mem_cons_self _ _))
        cases cs3 with
        | nil => exact hc2.1
        | cons c3 cs4 =>
          show c2 ++ '\n' :: joinSepC '\n' (c3 :: cs4) ≠ []
          simp
      have hstream : (((c :: c2 :: cs3).map (fun u => u ++ ['\n'])).flatten) =
          (c ++ ['\n']) ++ (((c2 :: cs3).map (fun u => u ++ ['\n'])).flatten) := by
        simp
      rw [hstream, rtrimCut_append_of_ne_nil (c ++ ['\n']) (ihr ▸ hjoin_ne), ihr]
      show (c ++ ['\n']) ++ joinSepC '\n' (c2 :: cs3) = c ++ '\n' :: joinSepC '\n' (c2 :: cs3)
      simp

theorem newline_cut_sub : ∀ a : Char, (['\n'] : List Char).contains a = true →
    (['\r', '\n'] : List Char).contains a = true := by
  intro a h
  simp only [List.contains_cons, List.contains_nil, Bool.or_false, beq_iff_eq] at h
  simp [List.contains_cons, h]

/-- C2: recv returns a single non-START line with its trailing carriage
returns and newlines stripped (any later bytes are left unread); for a START
line it returns the block lines accumulated in order up to and excluding the
first END-prefixed line, neither marker present — for nonempty CR/LF-free
line contents this is exactly the contents joined by single newline
separators; and whenever any underlying line read fails, on the first line
or inside the block, recv returns an error, never a partial or empty
success. -/
theorem recv_spec :
    (∀ (c rest : List Char), '\n' ∉ c →
      ¬("START".data).isPrefixOf (c ++ ['\n']) = true →
      recv (c ++ '\n' :: rest) = some (String.mk (rtrimCut ['\r', '\n'] c))) ∧
    (∀ (s0 : List Char) (cs : List (List Char)) (e rest : List Char),
      '\n' ∉ s0 → ("START".data).isPrefixOf (s0 ++ ['\n']) = true →
      (∀ c ∈ cs, '\n' ∉ c ∧ ¬("END".data).isPrefixOf (c ++ ['\n']) = true) →
      '\n' ∉ e → ("END".data).isPrefixOf (e ++ ['\n']) = true →
      recv ((s0 ++ ['\n']) ++ ((cs.map (fun c => c ++ ['\n'])).flatten ++ (e ++ '\n' :: rest))) =
        some (String.mk (rtrimCut ['\r', '\n'] ((cs.map (fun c => c ++ ['\n'])).flatten)))) ∧
    (∀ cs : List (List Char), cs ≠ [] → (∀ c ∈ cs, c ≠ [] ∧ '\n' ∉ c ∧ '\r' ∉ c) →
      rtrimCut ['\r', '\n'] ((cs.map (fun c => c ++ ['\n'])).flatten) = joinSepC '\n' cs) ∧
    (∀ s : List Char, '\n' ∉ s → recv s = none) ∧
    (∀ (s0 : List Char) (cs : List (List Char)) (tail : List Char),
      '\n' ∉ s0 → ("START".data).isPrefixOf (s0 ++ ['\n']) = true →
      (∀ c ∈ cs, '\n' ∉ c ∧ ¬("END".data).isPrefixOf (c ++ ['\n']) = true) →
      '\n' ∉ tail →
      recv ((s0 ++ ['\n']) ++ ((cs.map (fun c => c ++ ['\n'])).flatten ++ tail)) = none) := by
  refine ⟨?_, ?_, rtrim_join_clean, ?_, ?_⟩
  · intro c rest hn hns
    unfold recv
    simp only [readLine_line rest hn]
    rw [if_neg hns, rtrimCut_append_newline c (by decide),
      rtrimCut_rtrimCut c newline_cut_sub]
  · intro s0 cs e rest hn0 hst hcs hne hend
    have hstream : ((s0 ++ ['\n']) ++ ((cs.map (fun c => c ++ ['\n'])).flatten ++
        (e ++ '\n' :: rest))) =
        s0 ++ '\n' :: ((cs.map (fun c => c ++ ['\n'])).flatten ++ (e ++ '\n' :: rest)) := by
      simp
    rw [hstream]
    unfold recv
    simp only [readLine_line _ hn0]
    rw [if_pos hst, recvBlock_join cs hcs (e ++ '\n' :: rest), recvBlock_end rest hne hend]
    simp only [List.append_nil]
    rw [rtrimCut_rtrimCut _ newline_cut_sub]
  · intro s h
    unfold recv
    rw [readLine_none h]
  · intro s0 cs tail hn0 hst hcs htail
    have hstream : ((s0 ++ ['\n']) ++ ((cs.map (fun c => c ++ ['\n'])).flatten ++ tail)) =
        s0 ++ '\n' :: ((cs.map (fun c => c ++ ['\n'])).flatten ++ tail) := by
      simp
    rw [hstream]
    unfold recv
    simp only [readLine_line _ hn0]
    rw [if_pos hst, recvBlock_join cs hcs tail, recvBlock_none htail]

/-- Witness for C2 at concrete streams: a plain reply line followed by
unread bytes, a two-line block, and a stream that ends mid-line. -/
theorem recv_spec_witness :
    recv ("Done\r\nleftover".data) = some "Done" ∧
    recv ("START\nfoo 1\nbar 2\nEND\n".data) = some "foo 1\nbar 2" ∧
    recv ("par".data) = none := by
  refine ⟨?_, ?_, ?_⟩
  · have h := recv_spec.1 "Done\r".data "leftover".data (by decide) (by decide)
    have hs : "Done\r".data ++ '\n' :: "leftover".data = "Done\r\nleftover".data := by decide
    rw [hs] at h
    exact h.trans (by decide)
  · have h := recv_spec.2.1 "START".data ["foo 1".data, "bar 2".data] "END".data []
      (by decide) (by decide) (by decide) (by decide) (by decide)
    have hs : ("START".data ++ ['\n']) ++
        ((["foo 1".data, "bar 2".data].map (fun c => c ++ ['\n'])).flatten ++
          ("END".data ++ '\n' :: [])) = "START\nfoo 1\nbar 2\nEND\n".data := by decide
    rw [hs] at h
    exact h.trans (by decide)
  · exact recv_spec.2.2.2.1 "par".data (by decide)

theorem sendLoop_no_success (outcomes : Nat → Bool) (cmd : String) (m : Nat) :
    ∀ (k a : Nat) (t : List String), m - a = k → a ≤ m →
      (∀ i, a ≤ i → i < m → outcomes i = false) →
      sendLoop outcomes cmd m a t =
        ((if m = 0 then Except.ok () else Except.error "bloomd: unable to write to connection"),
          t ++ List.replicate (m - a) (cmd ++ "\n")) := by
  intro k
  induction k with
  | zero =>
    intro a t hk ham hall
    have ha : a = m := by omega
    subst ha
    unfold sendLoop
    rw [dif_neg (by omega)]
    by_cases h0 : a = 0 <;> simp [h0]
  | succ kb ih =>
    intro a t hk ham hall
    have ha : a < m := by omega
    unfold sendLoop
    rw [dif_pos ha]
    rw [hall a le_rfl ha]
    show sendLoop outcomes cmd m (a + 1) (t ++ [cmd ++ "\n"]) = _
    rw [ih (a + 1) (t ++ [cmd ++ "\n"]) (by omega) (by omega)
      (fun i h1 h2 => hall i (by omega) h2)]
    have hrep : m - a = (m - (a + 1)) + 1 := by omega
    rw [hrep, List.replicate_succ]
    simp

theorem sendLoop_first_success (outcomes : Nat → Bool) (cmd : String) (m : Nat) :
    ∀ (k a : Nat) (t : List String) (i : Nat), i - a = k → a ≤ i → i < m →
      (∀ j, a ≤ j → j < i → outcomes j = false) → outcomes i = true →
      sendLoop outcomes cmd m a t =
        (Except.ok (), t ++ List.replicate (i - a + 1) (cmd ++ "\n")) := by
  intro k
  induction k with
  | zero =>
    intro a t i hk ham him hmin hoi
    have ha : a = i := by omega
    subst ha
    unfold sendLoop
    rw [dif_pos him, hoi]
    simp
  | succ kb ih =>
    intro a t i hk ham him hmin hoi
    have ha : a < i := by omega
    unfold sendLoop
    rw [dif_pos (by omega)]
    rw [hmin a le_rfl ha]
    show sendLoop outcomes cmd m (a + 1) (t ++ [cmd ++ "\n"]) = _
    rw [ih (a + 1) (t ++ [cmd ++ "\n"]) i (by omega) (by omega) him
      (fun j h1 h2 => hmin j (by omega) h2) hoi]
    have hrep : i - a + 1 = (i - (a + 1) + 1) + 1 := by omega
    rw [hrep, List.replicate_succ]
    simp [List.replicate_succ]

/-- C9: every write send makes is the command followed by a single newline;
at most maxAttempts writes happen in total (the retry loop terminates within
the bound); when the first successful write is attempt i, send returns
success right there after exactly i+1 writes and no further attempts; a
surfaced connection error means every one of the maxAttempts attempts ran
and failed; and for a positive bound send succeeds exactly when some attempt
within the bound succeeds. -/
theorem send_spec :
    ∀ (outcomes : Nat → Bool) (cmd : String) (maxAttempts : Nat),
      (∀ w ∈ (send outcomes cmd maxAttempts).2, w = cmd ++ "\n") ∧
      (send outcomes cmd maxAttempts).2.length ≤ maxAttempts ∧
      (∀ i, i < maxAttempts → (∀ j, j < i → outcomes j = false) → outcomes i = true →
        send outcomes cmd maxAttempts =
          (Except.ok (), List.replicate (i + 1) (cmd ++ "\n"))) ∧
      ((send outcomes cmd maxAttempts).1 =
          Except.error "bloomd: unable to write to connection" →
        (∀ i, i < maxAttempts → outcomes i = false) ∧
        (send outcomes cmd maxAttempts).2.length = maxAttempts) ∧
      (0 < maxAttempts →
        ((send outcomes cmd maxAttempts).1 = Except.ok () ↔
          ∃ i, i < maxAttempts ∧ outcomes i = true)) := by
  intro o cmd m
  have hpart3 : ∀ i, i < m → (∀ j, j < i → o j = false) → o i = true →
      send o cmd m = (Except.ok (), List.replicate (i + 1) (cmd ++ "\n")) := by
    intro i hi hmin hoi
    have h := sendLoop_first_success o cmd m i 0 [] i rfl (Nat.zero_le _) hi
      (fun j _ hj => hmin j hj) hoi
    simpa [send] using h
  by_cases hex : ∃ i, i < m ∧ o i = true
  · obtain ⟨i0, hi0m, hi0⟩ : ∃ i0, (i0 < m ∧ o i0 = true) ∧
        ∀ j, j < i0 → ¬(j < m ∧ o j = true) :=
      ⟨Nat.find hex, Nat.find_spec hex, fun j hj => Nat.find_min hex hj⟩
    have hmin : ∀ j, j < i0 → o j = false := by
      intro j hj
      have := hi0 j hj
      cases hoj : o j with
      | true => exact absurd ⟨by omega, hoj⟩ this
      | false => rfl
    have hsend := hpart3 i0 hi0m.1 hmin hi0m.2
    refine ⟨?_, ?_, hpart3, ?_, ?_⟩
    · intro w hw
      rw [hsend] at hw
      exact (List.eq_of_mem_replicate hw)
    · rw [hsend]
      simp only [List.length_replicate]
      omega
    · rw [hsend]
      intro hcontra
      cases hcontra
    · intro hm
      rw [hsend]
      simp only [true_iff]
      exact ⟨i0, hi0m.1, hi0m.2⟩
  · have hall : ∀ i, i < m → o i = false := by
      intro i hi
      cases hoi : o i with
      | true => exact absurd ⟨i, hi, hoi⟩ hex
      | false => rfl
    have hsend : send o cmd m =
        ((if m = 0 then Except.ok ()
          else Except.error "bloomd: unable to write to connection"),
          List.replicate m (cmd ++ "\n")) := by
      have h := sendLoop_no_success o cmd m m 0 [] rfl (Nat.zero_le _)
        (fun i _ h2 => hall i h2)
      simpa [send] using h
    refine ⟨?_, ?_, hpart3, ?_, ?_⟩
    · intro w hw
      rw [hsend] at hw
      exact (List.eq_of_mem_replicate hw)
    · rw [hsend]
      simp
    · intro _
      rw [hsend]
      simp
      exact hall
    · intro hm
      rw [hsend]
      rw [if_neg (by omega)]
      constructor
      · intro hcontra
        cases hcontra
      · intro hcontra
        exact absurd hcontra hex

/-- Witness for C9 at a concrete writer failing once then succeeding. -/
theorem send_spec_witness :
    send (fun i => decide (i = 1)) "ping" 3 = (Except.ok (), ["ping\n", "ping\n"]) := by
  have h := (send_spec (fun i => decide (i = 1)) "ping" 3).2.2.1 1 (by decide)
    (fun j hj => by
      rw [Nat.lt_one_iff.mp hj]
      rfl)
    (by decide)
  exact h.trans (by decide)

/-- C10: the transport yields the empty response text for a block holding no
lines between the START and END markers (a daemon with zero filters), and
parseFilterList rejects the empty response with a protocol error rather than
an empty list; moreover no response at all parses to an empty list, so
ListAll can never return an empty slice. -/
theorem listAll_empty_spec :
    recv ("START\nEND\n".data) = some "" ∧
    parseFilterList "" =
      Except.error (BErr.protocolError ("bloomd: unexpected response ")) ∧
    (∀ (resp : String) (l : List BloomFilter),
      parseFilterList resp = Except.ok l → l ≠ []) := by
  refine ⟨?_, by decide, ?_⟩
  · have hs : "START\nEND\n".data = "START".data ++ '\n' :: ("END".data ++ '\n' :: []) := by
      decide
    rw [hs]
    unfold recv
    simp only [readLine_line ("END".data ++ '\n' :: []) (show '\n' ∉ "START".data by decide)]
    rw [if_pos (by decide), recvBlock_end [] (by decide) (by decide)]
    rfl
  · intro resp l hok hnil
    unfold parseFilterList at hok
    rw [parseFilterListLoop_eq_mapM] at hok
    cases hm : (splitOnChar '\n' resp.data).mapM parseRow with
    | none => rw [hm] at hok; cases hok
    | some l2 =>
      rw [hm] at hok
      simp only [Except.ok.injEq] at hok
      subst hok
      subst hnil
      have hl := mapM_parseRow_length _ _ hm
      have hne := splitOnChar_ne_nil '\n' resp.data
      exact hne (List.eq_nil_of_length_eq_zero (by simpa using hl.symm))

/-- Witness for C10's quantified part at a concrete successful parse. -/
theorem listAll_empty_spec_witness :
    ([⟨100000, "bar", mkRat 1 10000, 1, 300046⟩] : List BloomFilter) ≠ [] :=
  listAll_empty_spec.2.2 "bar 0.000100 300046 100000 1"
    [⟨100000, "bar", mkRat 1 10000, 1, 300046⟩] (by decide)

theorem beq_yes_data (t : String) : (t.data == "Yes".data) = (t == "Yes") := by
  rw [Bool.eq_iff_iff]
  simp only [beq_iff_eq]
  exact ⟨fun h => String.ext h, fun h => congrArg String.data h⟩

/-- C1: for a nonempty list of Yes/No tokens (the daemon reply to a bulk or
multi command over n keys, joined by single spaces), parseBoolList succeeds
and returns the list whose i-th element is (token i equals "Yes"), of length
exactly n. -/
theorem parseBoolList_valid_spec :
    ∀ (n : Nat) (toks : List String), toks.length = n → toks ≠ [] →
      (∀ t ∈ toks, t = "Yes" ∨ t = "No") →
      parseBoolList n (String.mk (joinSepC ' ' (toks.map String.data))) =
        Except.ok (toks.map (fun t => t == "Yes")) ∧
      (toks.map (fun t : String => (t == "Yes" : Bool))).length = n := by
  intro n toks hlen hne htoks
  obtain ⟨t0, rest, rfl⟩ : ∃ t0 rest, toks = t0 :: rest := by
    cases toks with
    | nil => exact absurd rfl hne
    | cons a b => exact ⟨a, b, rfl⟩
  obtain ⟨tail, htail⟩ :
      ∃ tail, joinSepC ' ' ((t0 :: rest).map String.data) = t0.data ++ tail := by
    cases rest with
    | nil => exact ⟨[], by simp [joinSepC]⟩
    | cons t1 r2 => exact ⟨' ' :: joinSepC ' ' ((t1 :: r2).map String.data), rfl⟩
  have ht0 := htoks t0 (List.mem_cons_self _ _)
  have hsep : ∀ w ∈ (t0 :: rest).map String.data, ' ' ∉ w := by
    intro w hw
    obtain ⟨t, ht, rfl⟩ := List.mem_map.mp hw
    rcases htoks t ht with h | h <;> subst h <;> decide
  have hsplit : splitOnChar ' ' (joinSepC ' ' ((t0 :: rest).map String.data)) =
      (t0 :: rest).map String.data :=
    splitOnChar_joinSepC (by simp) hsep
  have hne_fne :
      String.mk (joinSepC ' ' ((t0 :: rest).map String.data)) ≠ "Filter does not exist" := by
    intro heq
    have hdata : t0.data ++ tail = "Filter does not exist".data :=
      htail ▸ congrArg String.data heq
    rcases ht0 with h | h <;> subst h
    · have hbad : (['Y'] : List Char) = ['F'] := congrArg (fun l => List.take 1 l) hdata
      exact absurd hbad (by decide)
    · have hbad : (['N'] : List Char) = ['F'] := congrArg (fun l => List.take 1 l) hdata
      exact absurd hbad (by decide)
  have hpre : ("Yes".data.isPrefixOf (t0.data ++ tail)) = true ∨
      ("No".data.isPrefixOf (t0.data ++ tail)) = true := by
    rcases ht0 with h | h <;> subst h
    · exact Or.inl (List.isPrefixOf_iff_prefix.mpr ⟨tail, rfl⟩)
    · exact Or.inr (List.isPrefixOf_iff_prefix.mpr ⟨tail, rfl⟩)
  constructor
  · unfold parseBoolList
    rw [if_neg hne_fne, if_neg, hsplit, List.map_map]
    · have hfun : ((fun w => w == "Yes".data) ∘ String.data) =
          (fun t : String => (t == "Yes" : Bool)) := by
        funext t
        exact beq_yes_data t
      rw [hfun]
    · show ¬((!("Yes".data.isPrefixOf (String.mk _).data) &&
        !("No".data.isPrefixOf (String.mk _).data)) = true)
      rcases hpre with h | h <;> rw [show (String.mk (joinSepC ' '
        ((t0 :: rest).map String.data))).data = t0.data ++ tail from htail] <;>
        simp [h]
  · simpa using hlen

/-- Witness for C1 at a concrete token list. -/
theorem parseBoolList_valid_spec_witness :
    parseBoolList 2 "Yes No" = Except.ok [true, false] := by
  have h := parseBoolList_valid_spec 2 ["Yes", "No"] (by decide) (by decide) (by decide)
  have heq : String.mk (joinSepC ' ' (["Yes", "No"].map String.data)) = "Yes No" := by decide
  rw [heq] at h
  exact h.1.trans (by rfl)

/-- C6: parseBoolList errors exactly when the response does not begin with
"Yes" or "No"; in the error case, the literal response
"Filter does not exist" yields the distinguished FilterDoesNotExist error and
every other response yields a protocol error carrying the response text. -/
theorem parseBoolList_error_spec :
    ∀ (n : Nat) (resp : String),
      ((∃ e, parseBoolList n resp = Except.error e) ↔
        ¬("Yes".data <+: resp.data ∨ "No".data <+: resp.data)) ∧
      (resp = "Filter does not exist" →
        parseBoolList n resp = Except.error BErr.filterDoesNotExist) ∧
      (¬("Yes".data <+: resp.data ∨ "No".data <+: resp.data) →
        resp ≠ "Filter does not exist" →
        parseBoolList n resp =
          Except.error (BErr.protocolError ("bloomd: unexpected response " ++ resp))) := by
  intro n resp
  refine ⟨?_, ?_, ?_⟩
  · unfold parseBoolList
    split_ifs with h1 h2
    · subst h1
      exact ⟨fun _ => by decide, fun _ => ⟨_, rfl⟩⟩
    · constructor
      · intro _ hor
        rcases hor with hp | hp <;> rw [← List.isPrefixOf_iff_prefix] at hp <;>
          simp [hp] at h2
      · intro _
        exact ⟨_, rfl⟩
    · constructor
      · rintro ⟨e, he⟩
        cases he
      · intro hnor
        exfalso
        apply hnor
        cases hy : ("Yes".data.isPrefixOf resp.data) with
        | true => exact Or.inl (List.isPrefixOf_iff_prefix.mp hy)
        | false =>
          cases hn : ("No".data.isPrefixOf resp.data) with
          | true => exact Or.inr (List.isPrefixOf_iff_prefix.mp hn)
          | false => exact absurd (by simp [hy, hn]) h2
  · intro h1
    subst h1
    rfl
  · intro hnor hfe
    have hy : ("Yes".data.isPrefixOf resp.data) = false := by
      cases hy : ("Yes".data.isPrefixOf resp.data) with
      | true => exact absurd (Or.inl (List.isPrefixOf_iff_prefix.mp hy)) hnor
      | false => rfl
    have hn : ("No".data.isPrefixOf resp.data) = false := by
      cases hn : ("No".data.isPrefixOf resp.data) with
      | true => exact absurd (Or.inr (List.isPrefixOf_iff_prefix.mp hn)) hnor
      | false => rfl
    unfold parseBoolList
    rw [if_neg hfe, if_pos (by simp [hy, hn])]

/-- Witness for C6 at concrete inputs. -/
theorem parseBoolList_error_spec_witness :
    parseBoolList 1 "Filter does not exist" = Except.error BErr.filterDoesNotExist ∧
    parseBoolList 1 "Client Error: bad" =
      Except.error (BErr.protocolError ("bloomd: unexpected response Client Error: bad")) := by
  constructor
  · exact (parseBoolList_error_spec 1 "Filter does not exist").2.1 rfl
  · have h := (parseBoolList_error_spec 1 "Client Error: bad").2.2 (by decide) (by decide)
    exact h.trans (by rfl)

/-- C5: parseCreate succeeds exactly on "Done" and "Exists"; on
"Delete in progress" it returns the distinguished DeleteInProgress error,
which is distinct from every generic protocol error; every other response
yields a protocol error carrying the response text. -/
theorem parseCreate_spec :
    (∀ resp : String, parseCreate resp = Except.ok () ↔ resp = "Done" ∨ resp = "Exists") ∧
    parseCreate "Delete in progress" = Except.error BErr.deleteInProgress ∧
    (∀ msg : String, BErr.deleteInProgress ≠ BErr.protocolError msg) ∧
    (∀ resp : String, resp ≠ "Done" → resp ≠ "Exists" → resp ≠ "Delete in progress" →
      parseCreate resp = Except.error (BErr.protocolError resp)) := by
  refine ⟨?_, ?_, ?_, ?_⟩
  · intro resp
    unfold parseCreate
    split_ifs with h1 h2 h3 <;> simp_all
  · rfl
  · intro msg h
    exact BErr.noConfusion h
  · intro resp h1 h2 h3
    unfold parseCreate
    split_ifs <;> simp_all

/-- Witness for C5 at concrete inputs. -/
theorem parseCreate_spec_witness :
    parseCreate "Done" = Except.ok () ∧
    parseCreate "nonsense" = Except.error (BErr.protocolError "nonsense") :=
  ⟨(parseCreate_spec.1 "Done").mpr (Or.inl rfl),
   parseCreate_spec.2.2.2 "nonsense" (by decide) (by decide) (by decide)⟩

/-- C8: parseDropConfirmation succeeds exactly on "Done" and
"Filter does not exist" (drop is idempotent), and every other response
yields an error. -/
theorem parseDropConfirmation_spec :
    (∀ resp : String,
      parseDropConfirmation resp = Except.ok () ↔
        resp = "Done" ∨ resp = "Filter does not exist") ∧
    (∀ resp : String, resp ≠ "Done" → resp ≠ "Filter does not exist" →
      parseDropConfirmation resp = Except.error (BErr.protocolError resp)) := by
  constructor
  · intro resp
    unfold parseDropConfirmation
    split_ifs <;> simp_all
  · intro resp h1 h2
    unfold parseDropConfirmation
    split_ifs <;> simp_all

/-- Witness for C8 at concrete inputs. -/
theorem parseDropConfirmation_spec_witness :
    parseDropConfirmation "Filter does not exist" = Except.ok () ∧
    parseDropConfirmation "Wrong val" = Except.error (BErr.protocolError "Wrong val") :=
  ⟨(parseDropConfirmation_spec.1 "Filter does not exist").mpr (Or.inr rfl),
   parseDropConfirmation_spec.2 "Wrong val" (by decide) (by decide)⟩

end Bloomd
